import Mathlib

/-
Verification development for the snarl literate-programming processor
(src/snarl/main.py, src/snarl/exc.py).

The embedding below translates the core of the program:
  - the four module-level directive regexes (re_start_codeblock,
    re_end_codeblock, re_include_block, re_include_file), modelled as
    executable functions on the line's character list, following Python
    `re.match` semantics (anchored at the start; `$` matches at the end of
    the string or just before a final newline; `.` never matches a newline);
  - the argparse-based argument validators for codeblock-open and
    file-include directives (unknown flags, missing values and surplus
    positionals raise BlockArgumentError; full argparse niceties such as
    `--opt=value`, option abbreviation and the bare `--` separator are not
    modelled because no directive in this development uses them);
  - shlex.split, modelled for argument strings containing no quote or
    escape characters (the only form the directives here use);
  - html.escape;
  - the Snarl parser state machine (Snarl.parse / Snarl.process_line /
    Snarl.start_codeblock / Snarl.write_codeblock / Snarl.include_file /
    Snarl.include_verbatim / Snarl.new_block), with the spooled temporary
    files holding block content modelled as lists of line strings, and the
    output sink as the list of written chunks;
  - Snarl.generate, in two renderings: a pure one (generateP) returning the
    produced lines, and a file-state-aware one (generateS) that also tracks
    the read position of each block's backing file, which is the only piece
    of store state generation mutates.

Lines are represented as Python yields them from file iteration: each
string keeps its trailing newline character.

Recursion that is unbounded in Python (cyclic block references in generate;
the include recursion, which Python bounds by MAX_INCLUDE_DEPTH) is modelled
with an explicit fuel / remaining-depth parameter; exhausted fuel yields
`none`, standing for the non-returning or aborting computation.
-/

set_option maxHeartbeats 1000000

namespace Snarl

/-- Characters matched by the Python regex class `\s` (ASCII range). -/
def isPySpace (c : Char) : Bool :=
  c == ' ' || c == '\t' || c == '\n' || c == '\r' || c == '\x0b' || c == '\x0c'

/-- Characters matched by the Python regex class `\w`, restricted to ASCII
(the directives verified here use only ASCII labels and language tags). -/
def isWordChar (c : Char) : Bool :=
  ('a' ≤ c && c ≤ 'z') || ('A' ≤ c && c ≤ 'Z') || ('0' ≤ c && c ≤ '9') || c == '_'

/-- Whether the first list is a prefix of the second. -/
def isPrefixCh : List Char → List Char → Bool
  | [], _ => true
  | _ :: _, [] => false
  | p :: ps, c :: cs => p == c && isPrefixCh ps cs

/-- Drop a single trailing newline, reproducing where Python's `$` anchor
can match: at the end of the string or just before a final newline. -/
def stripNL (l : List Char) : List Char :=
  if l.getLast? = some '\n' then l.dropLast else l

/-- Whitespace characters recognized by shlex. -/
def shlexSpace (c : Char) : Bool :=
  c == ' ' || c == '\t' || c == '\r' || c == '\n'

/-- Accumulator-passing worker for `shlexSplit`. -/
def splitTokens : List Char → List Char → List String
  | [], acc => if acc.isEmpty then [] else [String.mk acc.reverse]
  | c :: cs, acc =>
    if shlexSpace c then
      if acc.isEmpty then splitTokens cs []
      else String.mk acc.reverse :: splitTokens cs []
    else splitTokens cs (c :: acc)

/-- Models `shlex.split` for argument strings containing no quote or escape
characters (the only form the directives in this development use): tokens
are the maximal runs of non-whitespace characters. -/
def shlexSplit (s : String) : List String := splitTokens s.data []

/-- Replace every leftmost non-overlapping occurrence of `p` by `r`. The
fuel argument is initialized to the length of the input; each step consumes
at least one input character, so the fuel never runs out (it only makes the
recursion structural). -/
def replaceGo (p r : List Char) : Nat → List Char → List Char
  | _, [] => []
  | 0, s => s
  | fuel + 1, c :: cs =>
    if p ≠ [] ∧ isPrefixCh p (c :: cs) = true then
      r ++ replaceGo p r fuel ((c :: cs).drop p.length)
    else
      c :: replaceGo p r fuel cs

/-- Models `re.sub(pat, sub, line)` for the literal patterns (no regex
metacharacters, no group references in the replacement) that the `--replace`
pairs in this development use: every leftmost non-overlapping occurrence of
the pattern is replaced. An empty pattern leaves the line unchanged. -/
def reSub (pat sub line : String) : String :=
  String.mk (replaceGo pat.data sub.data line.data.length line.data)

/-- Expansion of one character under `html.escape` (quote=True). -/
def escapeChar (c : Char) : List Char :=
  if c == '&' then "&amp;".data
  else if c == '<' then "&lt;".data
  else if c == '>' then "&gt;".data
  else if c == '"' then "&quot;".data
  else if c == '\'' then "&#x27;".data
  else [c]

/-- Models `html.escape` with its default quote=True. -/
def htmlEscape (s : String) : String :=
  String.mk (s.data.map escapeChar).flatten

/-- A parsed codeblock-open configuration: the flags accepted by
`create_block_parser` plus the optional positional label. -/
structure BlockConfig where
  hide : Bool
  file : Bool
  tag : List String
  replace : List (String × String)
  escapeHtml : Bool
  verbatim : Bool
  lang : Option String
  label : Option String
deriving DecidableEq

/-- The argparse defaults of the block parser. -/
def emptyConfig : BlockConfig :=
  { hide := false, file := false, tag := [], replace := [], escapeHtml := false,
    verbatim := false, lang := none, label := none }

/-- A stored block: the content captured so far (as lines, each with its
trailing newline) and the configuration recorded at creation. -/
structure Block where
  lines : List String
  config : BlockConfig
deriving DecidableEq

/-- The block store: Python's insertion-ordered dict from label to block. -/
abbrev Store := List (String × Block)

/-- The exception classes of src/snarl/exc.py (SnarlError subclasses). -/
inductive SnarlExc where
  | recursiveIncludeError : Nat → SnarlExc
  | blockArgumentError : SnarlExc
  | unexpectedEOFError : SnarlExc
deriving DecidableEq

/-- Errors a parse or generation run can raise: the snarl exception
taxonomy, plus the Python built-in exceptions the code lets escape
(KeyError from a dict lookup of an unknown label, FileNotFoundError from a
missing include target). -/
inductive PErr where
  | snarl : SnarlExc → PErr
  | keyError : String → PErr
  | fileNotFoundError : String → PErr
deriving DecidableEq

/-- The named groups of a successful `re_start_codeblock` match. -/
structure StartMatch where
  lang : Option String
  append : Bool
  args : Option String
deriving DecidableEq

/-- Models `re_start_codeblock.match(line)`, the regex
`^```(?P<lang>\w+)?((?P<append>\+)?=(?P<args>.+))?`: any line beginning
with a triple backtick matches; the optional groups capture the inline
language tag, the append marker and the argument string (which, having no
following anchor, extends to the end of the line or the first newline and
must be nonempty for the group to participate). -/
def parseStartCodeblock (line : String) : Option StartMatch :=
  if isPrefixCh "```".data line.data then
    let rest := line.data.drop 3
    let langChars := rest.takeWhile isWordChar
    let lang : Option String := if langChars.isEmpty then none else some (String.mk langChars)
    let rest2 := rest.drop langChars.length
    if isPrefixCh "+=".data rest2 then
      let argsChars := (rest2.drop 2).takeWhile (fun c => c != '\n')
      if argsChars.isEmpty then some { lang := lang, append := false, args := none }
      else some { lang := lang, append := true, args := some (String.mk argsChars) }
    else if isPrefixCh "=".data rest2 then
      let argsChars := (rest2.drop 1).takeWhile (fun c => c != '\n')
      if argsChars.isEmpty then some { lang := lang, append := false, args := none }
      else some { lang := lang, append := false, args := some (String.mk argsChars) }
    else some { lang := lang, append := false, args := none }
  else none

/-- Whether `re_start_codeblock` matches the line. -/
def matchesStartCodeblock (line : String) : Bool :=
  (parseStartCodeblock line).isSome

/-- Models `re_end_codeblock.match(line)`, the regex `^```$`: only the bare
fence, optionally followed by the line's final newline. -/
def matchesEndCodeblock (line : String) : Bool :=
  line == "```" || line == "```\n"

/-- The part of `re_include_block` after the `<<`: a nonempty greedy label
followed by a closing `>>` ending the match region. -/
def refLabelTail (v : List Char) : Option String :=
  if v.length ≥ 3 && v.drop (v.length - 2) == ['>', '>']
      && !(v.take (v.length - 2)).contains '\n' then
    some (String.mk (v.take (v.length - 2)))
  else none

/-- Models `re_include_block.match(line)`, the regex `^\s*<<(?P<label>.+)>>$`:
after optional leading whitespace, a `<<`, a nonempty greedy label, and a
closing `>>` at the end of the line (or just before its final newline). -/
def refLabel (line : String) : Option String :=
  if isPrefixCh "<<".data ((stripNL line.data).dropWhile isPySpace) then
    refLabelTail (((stripNL line.data).dropWhile isPySpace).drop 2)
  else none

/-- The `(?P<args>.*) -->$` part of `re_include_file`: the greedy `.*`
makes the arguments run to the last ` -->` of the match region. -/
def includeArgsTail (rest : List Char) : Option String :=
  if rest.length ≥ 4 && rest.drop (rest.length - 4) == " -->".data
      && !(rest.take (rest.length - 4)).contains '\n' then
    some (String.mk (rest.take (rest.length - 4)))
  else none

/-- The `(nclude)? ` part of `re_include_file` after the leading `<!-- i`:
either the full word `include` or the bare `i`, followed by a space. -/
def includeAfterI (r : List Char) : Option (List Char) :=
  if isPrefixCh "nclude ".data r then some (r.drop 7)
  else if isPrefixCh " ".data r then some (r.drop 1)
  else none

/-- Models `re_include_file.match(line)`, the regex
`^<!-- i(nclude)? (?P<args>.*) -->$`, returning the captured argument
string. -/
def parseIncludeFile (line : String) : Option String :=
  if isPrefixCh "<!-- i".data (stripNL line.data) then
    match includeAfterI ((stripNL line.data).drop 6) with
    | some rest => includeArgsTail rest
    | none => none
  else none

/-- Models `create_block_parser().parse_args`: a left-to-right scan over the
shlex tokens. Flags set their field; `--tag`/`-t` and `--replace`/`-r`
append; `--lang` stores its value; the first bare token is the positional
label and a second one, an option missing its value, or an unknown option
raises BlockArgumentError (via the overridden `ArgumentParser.error`). -/
def parseBlockArgs : List String → BlockConfig → Except PErr BlockConfig
  | [], cfg => .ok cfg
  | "--hide" :: rest, cfg => parseBlockArgs rest { cfg with hide := true }
  | "-H" :: rest, cfg => parseBlockArgs rest { cfg with hide := true }
  | "--file" :: rest, cfg => parseBlockArgs rest { cfg with file := true }
  | "-f" :: rest, cfg => parseBlockArgs rest { cfg with file := true }
  | "--tag" :: v :: rest, cfg => parseBlockArgs rest { cfg with tag := cfg.tag ++ [v] }
  | "-t" :: v :: rest, cfg => parseBlockArgs rest { cfg with tag := cfg.tag ++ [v] }
  | "--replace" :: p :: r :: rest, cfg =>
      parseBlockArgs rest { cfg with replace := cfg.replace ++ [(p, r)] }
  | "-r" :: p :: r :: rest, cfg =>
      parseBlockArgs rest { cfg with replace := cfg.replace ++ [(p, r)] }
  | "--escape-html" :: rest, cfg => parseBlockArgs rest { cfg with escapeHtml := true }
  | "--verbatim" :: rest, cfg => parseBlockArgs rest { cfg with verbatim := true }
  | "--lang" :: v :: rest, cfg => parseBlockArgs rest { cfg with lang := some v }
  | a :: rest, cfg =>
    if isPrefixCh "-".data a.data && a != "-" then .error (.snarl .blockArgumentError)
    else
      match cfg.label with
      | none => parseBlockArgs rest { cfg with label := some a }
      | some _ => .error (.snarl .blockArgumentError)

/-- A parsed file-include configuration (`create_include_parser`). -/
structure IncludeConfig where
  escapeHtml : Bool
  verbatim : Bool
  path : Option String
deriving DecidableEq

/-- The argparse defaults of the include parser. -/
def emptyIncludeConfig : IncludeConfig :=
  { escapeHtml := false, verbatim := false, path := none }

/-- Models `create_include_parser().parse_args` (scan phase): flags
`--escape-html`/`-e` and `--verbatim`/`-v`, one positional path; a second
positional or an unknown option raises BlockArgumentError. The missing-path
check happens in `includeStep`, mirroring argparse's required-argument
error. -/
def parseIncludeArgs : List String → IncludeConfig → Except PErr IncludeConfig
  | [], cfg => .ok cfg
  | "--escape-html" :: rest, cfg => parseIncludeArgs rest { cfg with escapeHtml := true }
  | "-e" :: rest, cfg => parseIncludeArgs rest { cfg with escapeHtml := true }
  | "--verbatim" :: rest, cfg => parseIncludeArgs rest { cfg with verbatim := true }
  | "-v" :: rest, cfg => parseIncludeArgs rest { cfg with verbatim := true }
  | a :: rest, cfg =>
    if isPrefixCh "-".data a.data && a != "-" then .error (.snarl .blockArgumentError)
    else
      match cfg.path with
      | none => parseIncludeArgs rest { cfg with path := some a }
      | some _ => .error (.snarl .blockArgumentError)

/-- The abstract file system the include resolver reads from: a path either
opens to its list of lines or does not exist. -/
abbrev FS := String → Option (List String)

/-- The two states of the parser state machine (class STATE). -/
inductive PState where
  | init
  | readCodeblock
deriving DecidableEq

/-- The mutable state of a Snarl instance during parsing: the block store,
the output sink (list of chunks written to outfd), the autoblock counter,
the label of the block currently referenced by `self.ctx.block`, and the
ignore_missing option. -/
structure SnarlState where
  blocks : Store
  out : List String
  blocknum : Nat
  ctxBlock : Option String
  ignoreMissing : Bool
deriving DecidableEq

/-- Dict lookup by label. -/
def lookupBlock : Store → String → Option Block
  | [], _ => none
  | (k, b) :: rest, l => if k == l then some b else lookupBlock rest l

/-- Dict assignment: replaces the entry in place if the key exists
(preserving insertion order), otherwise appends it. -/
def setEntry : Store → String → Block → Store
  | [], l, b => [(l, b)]
  | (k, v) :: rest, l, b => if k == l then (l, b) :: rest else (k, v) :: setEntry rest l b

/-- In-place update of the block stored under a label (the Python code
mutates the shared dict entry through `self.ctx.block`). Missing labels are
untouched; the parser never reaches that case. -/
def modifyEntry : Store → String → (Block → Block) → Store
  | [], _, _ => []
  | (k, v) :: rest, l, f => if k == l then (k, f v) :: rest else (k, v) :: modifyEntry rest l f

/-- The `['--lang', lang]` extension `start_codeblock` appends when the
fence carried an inline language tag. -/
def langArgs (m : StartMatch) : List String :=
  match m.lang with
  | some l => ["--lang", l]
  | none => []

/-- The argument-validation step of `start_codeblock`: shlex-split the
captured argument string, extend it with the inline language tag, and run
the block parser. -/
def blockArgsOf (m : StartMatch) : Except PErr BlockConfig :=
  parseBlockArgs (shlexSplit (m.args.getD "") ++ langArgs m) emptyConfig

/-- Models `Snarl.start_codeblock`: validate the arguments, synthesize an
`__autoblock<n>` label when none was given, then either look up the block
to append to (KeyError when the label is unknown) or register a fresh
empty block under the label, unconditionally replacing any existing one. -/
def startCodeblock (st : SnarlState) (m : StartMatch) : Except PErr SnarlState :=
  match blockArgsOf m with
  | .error e => .error e
  | .ok cfg0 =>
    let pr : BlockConfig × SnarlState :=
      match cfg0.label with
      | some _ => (cfg0, st)
      | none =>
        ({ cfg0 with label := some ("__autoblock" ++ toString st.blocknum) },
         { st with blocknum := st.blocknum + 1 })
    let cfg := pr.1
    let st1 := pr.2
    let label := cfg.label.getD ""
    if m.append then
      match lookupBlock st1.blocks label with
      | none => .error (.keyError label)
      | some _ => .ok { st1 with ctxBlock := some label }
    else
      .ok { st1 with
              blocks := setEntry st1.blocks label { lines := [], config := cfg },
              ctxBlock := some label }

/-- Models `Snarl.write_codeblock`: the chunks written to the output sink
when a block is serialized at close-fence time — an opening fence carrying
the block's language tag, the buffered lines (HTML-escaped when
configured), and a bare closing fence. -/
def weaveBlock (blk : Block) : List String :=
  ("```" ++ blk.config.lang.getD "" ++ "\n")
    :: (if blk.config.escapeHtml then blk.lines.map htmlEscape else blk.lines)
    ++ ["```\n"]

/-- One captured line written to the current block's buffer
(`self.ctx.block['fd'].write(line)`). -/
def captureWrite (st : SnarlState) (line : String) : SnarlState :=
  match st.ctxBlock with
  | some l =>
    { st with blocks := modifyEntry st.blocks l (fun b => { b with lines := b.lines ++ [line] }) }
  | none => st

/-- The close-fence action: serialize the current block into the output
sink unless it is hidden. The `none` case is unreachable: the capturing
state always has a current block. -/
def closeCodeblock (st : SnarlState) : SnarlState :=
  match st.ctxBlock with
  | some l =>
    match lookupBlock st.blocks l with
    | some blk => if blk.config.hide then st else { st with out := st.out ++ weaveBlock blk }
    | none => st
  | none => st

/-- Models `Snarl.include_file` given `child`, the continuation that
re-parses the opened file at the next include depth: validate the shlexed
arguments, open the path (a missing file is fatal unless ignore_missing),
HTML-escape the content if requested, then either stream it verbatim into
the output sink or hand it to `child`. -/
def includeStep (fs : FS) (child : SnarlState → List String → Except PErr SnarlState)
    (st : SnarlState) (argstr : String) : Except PErr SnarlState :=
  match parseIncludeArgs (shlexSplit argstr) emptyIncludeConfig with
  | .error e => .error e
  | .ok icfg =>
    match icfg.path with
    | none => .error (.snarl .blockArgumentError)
    | some path =>
      match fs path with
      | none => if st.ignoreMissing then .ok st else .error (.fileNotFoundError path)
      | some flines0 =>
        let flines := if icfg.escapeHtml then flines0.map htmlEscape else flines0
        if icfg.verbatim then .ok { st with out := st.out ++ flines }
        else child st flines

/-- The line loop of `Snarl.parse`, parameterized by the continuation used
for nested (non-verbatim) file includes. In the INIT state a line is tried
against `re_start_codeblock` first, then `re_include_file`, and otherwise
copied verbatim to the output sink; in the READ_CODEBLOCK state a line
either closes the block at `re_end_codeblock` or is captured. Reaching the
end of input while still capturing raises UnexpectedEOFError. -/
def goLines (fs : FS) (child : SnarlState → List String → Except PErr SnarlState) :
    SnarlState → PState → List String → Except PErr SnarlState
  | st, state, [] =>
    if state = PState.init then .ok st else .error (.snarl .unexpectedEOFError)
  | st, PState.init, line :: rest =>
    match parseStartCodeblock line with
    | some m =>
      match startCodeblock st m with
      | .error e => .error e
      | .ok st2 => goLines fs child st2 PState.readCodeblock rest
    | none =>
      match parseIncludeFile line with
      | some argstr =>
        match includeStep fs child st argstr with
        | .error e => .error e
        | .ok st2 => goLines fs child st2 PState.init rest
      | none => goLines fs child { st with out := st.out ++ [line] } PState.init rest
  | st, PState.readCodeblock, line :: rest =>
    if matchesEndCodeblock line then
      goLines fs child (closeCodeblock st) PState.init rest
    else
      goLines fs child (captureWrite st line) PState.readCodeblock rest

/-- MAX_INCLUDE_DEPTH from the source. -/
def MAX_INCLUDE_DEPTH : Nat := 10

/-- `Snarl.parse` at include depth `depth`, with `gas` the number of
further include levels still allowed; the two are tied by
`gas = MAX_INCLUDE_DEPTH - 1 - depth`, so `gas = 0` at an include directive
reproduces the `depth >= MAX_INCLUDE_DEPTH` guard raising
RecursiveIncludeError (carrying the offending depth) at the entry of the
child parse. -/
def parseLoop (fs : FS) : Nat → Nat → SnarlState → PState → List String → Except PErr SnarlState
  | 0, depth, st, state, lines =>
    goLines fs (fun _ _ => .error (.snarl (.recursiveIncludeError (depth + 1)))) st state lines
  | g + 1, depth, st, state, lines =>
    goLines fs (fun st2 ls => parseLoop fs g (depth + 1) st2 PState.init ls) st state lines

/-- `Snarl.parse` on a top-level document (include depth 0). -/
def parse (fs : FS) (st : SnarlState) (lines : List String) : Except PErr SnarlState :=
  parseLoop fs (MAX_INCLUDE_DEPTH - 1) 0 st PState.init lines

/-- The generation-time treatment of one line that is not a block
reference: apply each `(pattern, substitution)` pair of the block's
configuration in declaration order. -/
def emitLine (cfg : BlockConfig) (line : String) : String :=
  cfg.replace.foldl (fun l pr => reSub pr.1 pr.2 l) line

/-- The per-line loop of `Snarl.generate._generate_block`, parameterized by
`expand`, the recursive `self.generate` used for `<<label>>` lines when the
block is not verbatim. -/
def genLinesAux (expand : String → Option (List String)) (cfg : BlockConfig) :
    List String → Option (List String)
  | [] => some []
  | l :: ls =>
    match refLabel l with
    | some lab =>
      if cfg.verbatim then
        (genLinesAux expand cfg ls).map (fun ys => emitLine cfg l :: ys)
      else
        (expand lab).bind (fun xs => (genLinesAux expand cfg ls).map (fun ys => xs ++ ys))
    | none => (genLinesAux expand cfg ls).map (fun ys => emitLine cfg l :: ys)

/-- Models `Snarl.generate` as a function of the block store: the sequence
of lines the returned generator yields, with `fuel` bounding the nesting
depth of block-reference expansion (`none` models the unknown label's
KeyError as well as the unbounded recursion a reference cycle causes). -/
def generateP (s : Store) : Nat → String → Option (List String)
  | 0, _ => none
  | fuel + 1, label =>
    (lookupBlock s label).bind
      (fun blk => genLinesAux (generateP s fuel) blk.config blk.lines)

/-- A block together with the read/write position of its backing spooled
temporary file. Generation seeks this file and reads it to its end, which
is the only store mutation `generate` performs. -/
structure GBlock where
  lines : List String
  pos : Nat
  config : BlockConfig
deriving DecidableEq

/-- The block store with file positions. -/
abbrev GStore := List (String × GBlock)

/-- Dict lookup by label. -/
def lookupG : GStore → String → Option GBlock
  | [], _ => none
  | (k, b) :: rest, l => if k == l then some b else lookupG rest l

/-- Set the file position of the block stored under a label. -/
def setPosG : GStore → String → Nat → GStore
  | [], _, _ => []
  | (k, b) :: rest, l, p =>
    if k == l then (k, { b with pos := p }) :: rest else (k, b) :: setPosG rest l p

/-- Forget the file positions, keeping each block's stored content and
configuration. -/
def toPure (gs : GStore) : Store :=
  gs.map (fun e => (e.1, { lines := e.2.lines, config := e.2.config }))

/-- The per-line loop of `_generate_block` in the file-state-aware
rendering: the store threads through nested expansions. -/
def genLinesSAux (expand : GStore → String → Option (List String × GStore))
    (cfg : BlockConfig) : GStore → List String → Option (List String × GStore)
  | gs, [] => some ([], gs)
  | gs, l :: ls =>
    match refLabel l with
    | some lab =>
      if cfg.verbatim then
        (genLinesSAux expand cfg gs ls).map (fun p => (emitLine cfg l :: p.1, p.2))
      else
        (expand gs lab).bind (fun q =>
          (genLinesSAux expand cfg q.2 ls).map (fun p => (q.1 ++ p.1, p.2)))
    | none => (genLinesSAux expand cfg gs ls).map (fun p => (emitLine cfg l :: p.1, p.2))

/-- Models `Snarl.generate` together with its effect on the store's file
positions: the generator seeks the block's file to 0 and its iteration
leaves the position at the end of the file; stored content and
configuration are never written. -/
def generateS : Nat → GStore → String → Option (List String × GStore)
  | 0, _, _ => none
  | fuel + 1, gs, label =>
    (lookupG gs label).bind
      (fun blk =>
        genLinesSAux (generateS fuel) blk.config (setPosG gs label blk.lines.length) blk.lines)

/-! Concrete fixtures used by the scenario theorems and witnesses. -/

/-- A fresh Snarl instance's state (`Snarl.__init__` with default options). -/
def st0 : SnarlState :=
  { blocks := [], out := [], blocknum := 0, ctxBlock := none, ignoreMissing := false }

/-- A file system with no files. -/
def fsEmpty : FS := fun _ => none

/-- Assoc-list lookup for concrete file systems. -/
def lookupList (l : List (String × List String)) (p : String) : Option (List String) :=
  match l with
  | [] => none
  | (k, v) :: rest => if k = p then some v else lookupList rest p

/-- A file system from an explicit path/content table. -/
def tableFS (files : List (String × List String)) : FS := fun p => lookupList files p

/-- Ten files f1..f10, each of the first nine including the next; parsing a
document that includes f1 visits f10 at include depth 10. -/
def fs10 : FS := tableFS
  [("f1", ["<!-- include f2 -->\n"]), ("f2", ["<!-- include f3 -->\n"]),
   ("f3", ["<!-- include f4 -->\n"]), ("f4", ["<!-- include f5 -->\n"]),
   ("f5", ["<!-- include f6 -->\n"]), ("f6", ["<!-- include f7 -->\n"]),
   ("f7", ["<!-- include f8 -->\n"]), ("f8", ["<!-- include f9 -->\n"]),
   ("f9", ["<!-- include f10 -->\n"]), ("f10", ["done\n"])]

/-- Nine files f1..f9: the same chain one level shorter, so f9 is parsed at
include depth 9. -/
def fs9 : FS := tableFS
  [("f1", ["<!-- include f2 -->\n"]), ("f2", ["<!-- include f3 -->\n"]),
   ("f3", ["<!-- include f4 -->\n"]), ("f4", ["<!-- include f5 -->\n"]),
   ("f5", ["<!-- include f6 -->\n"]), ("f6", ["<!-- include f7 -->\n"]),
   ("f7", ["<!-- include f8 -->\n"]), ("f8", ["<!-- include f9 -->\n"]),
   ("f9", ["done\n"])]

/-- The backtick character, recovered from a string literal. -/
def btChar : Char := "`".data.headD 'x'

/-- A child continuation that parses nothing (used to instantiate the
`child` parameter of `goLines` in witnesses). -/
def childNone : SnarlState → List String → Except PErr SnarlState :=
  fun st _ => .ok st

/-- The document of the spec's replacement scenario: a block opened with
`--replace gadgets gizmos` capturing the single line "gadgets\n". -/
def docC3 : List String :=
  ["```=block0 --replace gadgets gizmos\n", "gadgets\n", "```\n"]

/-- The configuration the replacement scenario's open directive parses to. -/
def cfgC3 : BlockConfig :=
  { hide := false, file := false, tag := [], replace := [("gadgets", "gizmos")],
    escapeHtml := false, verbatim := false, lang := none, label := some "block0" }

/-- The state the replacement scenario's document parses to. -/
def stC3 : SnarlState :=
  { blocks := [("block0", { lines := ["gadgets\n"], config := cfgC3 })],
    out := ["```\n", "gadgets\n", "```\n"], blocknum := 0,
    ctxBlock := some "block0", ignoreMissing := false }

/-- A store with a block `A` holding one plain line and a block `B` whose
body is a reference to `A`. -/
def storeAB : Store :=
  [("A", { lines := ["hello\n"], config := emptyConfig }),
   ("B", { lines := ["<<A>>\n"], config := emptyConfig })]

/-- A one-block store whose backing file position is at the start. -/
def gsA0 : GStore := [("a", { lines := ["x\n"], pos := 0, config := emptyConfig })]

/-- The same store after one generation run: the file position is at the
end of the one-line file. -/
def gsA1 : GStore := [("a", { lines := ["x\n"], pos := 1, config := emptyConfig })]

/-- The codeblock-open match of the line "```+=nope\n": an append. -/
def mNope : StartMatch := { lang := none, append := true, args := some "nope" }

/-- The configuration mNope's argument string parses to. -/
def cfgNope : BlockConfig :=
  { hide := false, file := false, tag := [], replace := [], escapeHtml := false,
    verbatim := false, lang := none, label := some "nope" }

/-- The codeblock-open match of the line "```=b\n". -/
def mB : StartMatch := { lang := none, append := false, args := some "b" }

/-- The codeblock-open match of the line "```+=b\n". -/
def mBappend : StartMatch := { lang := none, append := true, args := some "b" }

/-- The configuration the argument string "b" parses to. -/
def cfgB : BlockConfig :=
  { hide := false, file := false, tag := [], replace := [], escapeHtml := false,
    verbatim := false, lang := none, label := some "b" }

/-- A state already holding a block labelled "b". -/
def stB : SnarlState :=
  { blocks := [("b", { lines := ["old\n"], config := emptyConfig })],
    out := [], blocknum := 0, ctxBlock := none, ignoreMissing := false }

/-- The state reached after parsing the nine-file include chain: one prose
line reached the output sink. -/
def stDone : SnarlState :=
  { blocks := [], out := ["done\n"], blocknum := 0, ctxBlock := none,
    ignoreMissing := false }

/-- The state reached after parsing the single doubled-sentinel line: it
was copied to the output sink verbatim, doubling intact. -/
def stC7 : SnarlState :=
  { blocks := [], out := ["<<!-- include f -->\n"], blocknum := 0, ctxBlock := none,
    ignoreMissing := false }

/-- The codeblock-open match of the line "```=secret --hide\n". -/
def mSecret : StartMatch :=
  { lang := none, append := false, args := some "secret --hide" }

/-- The configuration the argument string "secret --hide" parses to. -/
def cfgSecret : BlockConfig :=
  { hide := true, file := false, tag := [], replace := [], escapeHtml := false,
    verbatim := false, lang := none, label := some "secret" }

/-! Store and state-machine lemmas. -/

theorem lookupBlock_setEntry_self (bs : Store) (l : String) (b : Block) :
    lookupBlock (setEntry bs l b) l = some b := by
  induction bs with
  | nil => simp [setEntry, lookupBlock]
  | cons e rest ih =>
    obtain ⟨k, v⟩ := e
    by_cases h : k = l
    · simp [setEntry, lookupBlock, h]
    · simp [setEntry, lookupBlock, h, ih]

theorem setEntry_setEntry (bs : Store) (l : String) (b b' : Block) :
    setEntry (setEntry bs l b) l b' = setEntry bs l b' := by
  induction bs with
  | nil => simp [setEntry]
  | cons e rest ih =>
    obtain ⟨k, v⟩ := e
    by_cases h : k = l
    · simp [setEntry, h]
    · simp [setEntry, h, ih]

theorem setEntry_self_of_lookup (bs : Store) (l : String) (b : Block)
    (h : lookupBlock bs l = some b) : setEntry bs l b = bs := by
  induction bs with
  | nil => simp [lookupBlock] at h
  | cons e rest ih =>
    obtain ⟨k, v⟩ := e
    by_cases hk : k = l
    · simp [lookupBlock, hk] at h
      simp [setEntry, hk, h]
    · simp [lookupBlock, hk] at h
      simp [setEntry, hk, ih h]

theorem modifyEntry_eq_setEntry (bs : Store) (l : String) (f : Block → Block) (b : Block)
    (h : lookupBlock bs l = some b) : modifyEntry bs l f = setEntry bs l (f b) := by
  induction bs with
  | nil => simp [lookupBlock] at h
  | cons e rest ih =>
    obtain ⟨k, v⟩ := e
    by_cases hk : k = l
    · simp [lookupBlock, hk] at h
      simp [modifyEntry, setEntry, hk, h]
    · simp [lookupBlock, hk] at h
      simp [modifyEntry, setEntry, hk, ih h]

theorem goLines_init_start (fs : FS)
    (child : SnarlState → List String → Except PErr SnarlState)
    (st : SnarlState) (line : String) (rest : List String) (m : StartMatch)
    (st2 : SnarlState) (h1 : parseStartCodeblock line = some m)
    (h2 : startCodeblock st m = .ok st2) :
    goLines fs child st PState.init (line :: rest)
      = goLines fs child st2 PState.readCodeblock rest := by
  simp [goLines, h1, h2]

theorem goLines_init_prose (fs : FS)
    (child : SnarlState → List String → Except PErr SnarlState)
    (st : SnarlState) (line : String) (rest : List String)
    (h1 : parseStartCodeblock line = none) (h2 : parseIncludeFile line = none) :
    goLines fs child st PState.init (line :: rest)
      = goLines fs child { st with out := st.out ++ [line] } PState.init rest := by
  simp [goLines, h1, h2]

theorem goLines_capture_step (fs : FS)
    (child : SnarlState → List String → Except PErr SnarlState)
    (st : SnarlState) (line : String) (rest : List String)
    (h : matchesEndCodeblock line = false) :
    goLines fs child st PState.readCodeblock (line :: rest)
      = goLines fs child (captureWrite st line) PState.readCodeblock rest := by
  simp [goLines, h]

theorem goLines_close_step (fs : FS)
    (child : SnarlState → List String → Except PErr SnarlState)
    (st : SnarlState) (line : String) (rest : List String)
    (h : matchesEndCodeblock line = true) :
    goLines fs child st PState.readCodeblock (line :: rest)
      = goLines fs child (closeCodeblock st) PState.init rest := by
  simp [goLines, h]

theorem goLines_capture_run (fs : FS)
    (child : SnarlState → List String → Except PErr SnarlState)
    (body : List String) :
    ∀ (st : SnarlState) (rest : List String),
      (∀ l ∈ body, matchesEndCodeblock l = false) →
      goLines fs child st PState.readCodeblock (body ++ rest)
        = goLines fs child (body.foldl captureWrite st) PState.readCodeblock rest := by
  induction body with
  | nil => intro st rest _; simp
  | cons l ls ih =>
    intro st rest h
    have hl : matchesEndCodeblock l = false := h l (by simp)
    rw [List.cons_append, goLines_capture_step fs child st l (ls ++ rest) hl,
      List.foldl_cons]
    exact ih _ _ (fun x hx => h x (by simp [hx]))

theorem foldl_captureWrite (body : List String) :
    ∀ (st : SnarlState) (lbl : String) (blk : Block),
      st.ctxBlock = some lbl → lookupBlock st.blocks lbl = some blk →
      body.foldl captureWrite st
        = { st with blocks :=
              setEntry st.blocks lbl { lines := blk.lines ++ body, config := blk.config } } := by
  induction body with
  | nil =>
    intro st lbl blk hctx hlook
    have hb : { lines := blk.lines ++ [], config := blk.config } = blk := by
      cases blk; simp
    simp only [List.foldl_nil, hb, setEntry_self_of_lookup st.blocks lbl blk hlook]
  | cons l ls ih =>
    intro st lbl blk hctx hlook
    have hcw : captureWrite st l
        = { st with blocks :=
              setEntry st.blocks lbl { lines := blk.lines ++ [l], config := blk.config } } := by
      simp only [captureWrite, hctx]
      rw [modifyEntry_eq_setEntry st.blocks lbl _ blk hlook]
    rw [List.foldl_cons, hcw, ih _ lbl { lines := blk.lines ++ [l], config := blk.config }
      (by simp [hctx]) (by simp [lookupBlock_setEntry_self])]
    simp [setEntry_setEntry]

/-! Generation lemmas. -/

theorem genLinesAux_append (expand : String → Option (List String)) (cfg : BlockConfig)
    (xs ys : List String) :
    genLinesAux expand cfg (xs ++ ys)
      = (genLinesAux expand cfg xs).bind
          (fun a => (genLinesAux expand cfg ys).map (fun b => a ++ b)) := by
  induction xs with
  | nil =>
    simp only [List.nil_append, genLinesAux, Option.some_bind]
    cases genLinesAux expand cfg ys <;> simp
  | cons l ls ih =>
    cases hr : refLabel l with
    | none =>
      simp only [List.cons_append, genLinesAux, hr, List.append_eq, ih]
      cases genLinesAux expand cfg ls <;> cases genLinesAux expand cfg ys <;> simp
    | some lab =>
      by_cases hv : cfg.verbatim
      · simp only [List.cons_append, genLinesAux, hr, if_pos hv, List.append_eq, ih]
        cases genLinesAux expand cfg ls <;> cases genLinesAux expand cfg ys <;> simp
      · simp only [List.cons_append, genLinesAux, hr, if_neg hv, List.append_eq, ih]
        cases expand lab with
        | none => simp
        | some xs0 =>
          cases genLinesAux expand cfg ls <;> cases genLinesAux expand cfg ys <;> simp

theorem genLinesAux_plain (expand : String → Option (List String)) (cfg : BlockConfig)
    (ls : List String) (h : ∀ l ∈ ls, refLabel l = none ∨ cfg.verbatim = true) :
    genLinesAux expand cfg ls = some (ls.map (emitLine cfg)) := by
  induction ls with
  | nil => simp [genLinesAux]
  | cons l ls ih =>
    have hrest := ih (fun x hx => h x (by simp [hx]))
    cases h l (by simp) with
    | inl hn => simp [genLinesAux, hn, hrest]
    | inr hv =>
      cases hr : refLabel l with
      | none => simp [genLinesAux, hr, hrest]
      | some lab => simp [genLinesAux, hr, hv, hrest]

theorem toPure_setPosG (gs : GStore) (l : String) (p : Nat) :
    toPure (setPosG gs l p) = toPure gs := by
  induction gs with
  | nil => simp [setPosG]
  | cons e rest ih =>
    obtain ⟨k, b⟩ := e
    by_cases h : k = l
    · simp [setPosG, toPure, h]
    · simp [setPosG, toPure, h]
      exact ih

theorem lookupBlock_toPure (gs : GStore) (l : String) :
    lookupBlock (toPure gs) l
      = (lookupG gs l).map (fun b => { lines := b.lines, config := b.config }) := by
  induction gs with
  | nil => simp [toPure, lookupBlock, lookupG]
  | cons e rest ih =>
    obtain ⟨k, b⟩ := e
    by_cases h : k = l
    · simp [toPure, lookupBlock, lookupG, h]
    · simp [toPure, lookupBlock, lookupG, h]
      exact ih

theorem genLinesSAux_props (p : Store)
    (expandS : GStore → String → Option (List String × GStore))
    (ep : String → Option (List String))
    (hS : ∀ gs lab, toPure gs = p → (expandS gs lab).map Prod.fst = ep lab)
    (hP : ∀ gs lab out gs', toPure gs = p → expandS gs lab = some (out, gs') → toPure gs' = p)
    (cfg : BlockConfig) (ls : List String) :
    ∀ gs, toPure gs = p →
      ((genLinesSAux expandS cfg gs ls).map Prod.fst = genLinesAux ep cfg ls
        ∧ ∀ out gs', genLinesSAux expandS cfg gs ls = some (out, gs') → toPure gs' = p) := by
  induction ls with
  | nil =>
    intro gs hgs
    refine ⟨by simp [genLinesSAux, genLinesAux], ?_⟩
    intro out gs' h
    simp only [genLinesSAux, Option.some.injEq, Prod.mk.injEq] at h
    rw [← h.2, hgs]
  | cons l ls ih =>
    intro gs hgs
    have hia := (ih gs hgs).1
    have hip := (ih gs hgs).2
    cases hr : refLabel l with
    | none =>
      constructor
      · simp only [genLinesSAux, genLinesAux, hr]
        cases hg : genLinesSAux expandS cfg gs ls with
        | none =>
          rw [hg] at hia; simp only [Option.map_none'] at hia
          simp [← hia]
        | some pr =>
          rw [hg] at hia; simp only [Option.map_some'] at hia
          simp [← hia]
      · intro out gs' h
        simp only [genLinesSAux, hr] at h
        cases hg : genLinesSAux expandS cfg gs ls with
        | none => rw [hg] at h; simp at h
        | some pr =>
          rw [hg] at h
          simp only [Option.map_some', Option.some.injEq, Prod.mk.injEq] at h
          rw [← h.2]
          exact hip pr.1 pr.2 (by simp [hg])
    | some lab =>
      by_cases hv : cfg.verbatim
      · constructor
        · simp only [genLinesSAux, genLinesAux, hr, if_pos hv]
          cases hg : genLinesSAux expandS cfg gs ls with
          | none =>
            rw [hg] at hia; simp only [Option.map_none'] at hia
            simp [← hia]
          | some pr =>
            rw [hg] at hia; simp only [Option.map_some'] at hia
            simp [← hia]
        · intro out gs' h
          simp only [genLinesSAux, hr, if_pos hv] at h
          cases hg : genLinesSAux expandS cfg gs ls with
          | none => rw [hg] at h; simp at h
          | some pr =>
            rw [hg] at h
            simp only [Option.map_some', Option.some.injEq, Prod.mk.injEq] at h
            rw [← h.2]
            exact hip pr.1 pr.2 (by simp [hg])
      · constructor
        · simp only [genLinesSAux, genLinesAux, hr, if_neg hv]
          cases he : expandS gs lab with
          | none =>
            have hep := hS gs lab hgs
            rw [he] at hep; simp only [Option.map_none'] at hep
            simp [← hep]
          | some pr =>
            obtain ⟨xs, gs1⟩ := pr
            have hep := hS gs lab hgs
            rw [he] at hep; simp only [Option.map_some'] at hep
            rw [← hep]
            have hgs1 : toPure gs1 = p := hP gs lab xs gs1 hgs he
            have hia1 := (ih gs1 hgs1).1
            cases hg : genLinesSAux expandS cfg gs1 ls with
            | none =>
              rw [hg] at hia1; simp only [Option.map_none'] at hia1
              simp [← hia1, hg]
            | some pr2 =>
              rw [hg] at hia1; simp only [Option.map_some'] at hia1
              simp [← hia1, hg]
        · intro out gs' h
          simp only [genLinesSAux, hr, if_neg hv] at h
          cases he : expandS gs lab with
          | none => rw [he] at h; simp at h
          | some pr =>
            obtain ⟨xs, gs1⟩ := pr
            rw [he] at h
            simp only [Option.some_bind] at h
            have hgs1 : toPure gs1 = p := hP gs lab xs gs1 hgs he
            have hip1 := (ih gs1 hgs1).2
            cases hg : genLinesSAux expandS cfg gs1 ls with
            | none => rw [hg] at h; simp at h
            | some pr2 =>
              rw [hg] at h
              simp only [Option.map_some', Option.some.injEq, Prod.mk.injEq] at h
              rw [← h.2]
              exact hip1 pr2.1 pr2.2 (by simp [hg])

theorem generateS_props (fuel : Nat) :
    (∀ gs label, (generateS fuel gs label).map Prod.fst = generateP (toPure gs) fuel label)
    ∧ (∀ gs label out gs',
        generateS fuel gs label = some (out, gs') → toPure gs' = toPure gs) := by
  induction fuel with
  | zero =>
    refine ⟨fun gs label => by simp [generateS, generateP], ?_⟩
    intro gs label out gs' h
    simp [generateS] at h
  | succ fuel ih =>
    constructor
    · intro gs label
      simp only [generateS, generateP, lookupBlock_toPure]
      cases hl : lookupG gs label with
      | none => simp
      | some blk =>
        simp only [Option.map_some', Option.some_bind]
        exact (genLinesSAux_props (toPure gs) (generateS fuel)
          (generateP (toPure gs) fuel)
          (fun gs2 lab hgs2 => by rw [ih.1 gs2 lab, hgs2])
          (fun gs2 lab out gs2' hgs2 hsome => by
            rw [ih.2 gs2 lab out gs2' hsome, hgs2])
          blk.config blk.lines (setPosG gs label blk.lines.length)
          (toPure_setPosG gs label blk.lines.length)).1
    · intro gs label out gs' h
      simp only [generateS] at h
      cases hl : lookupG gs label with
      | none => rw [hl] at h; simp at h
      | some blk =>
        rw [hl] at h
        simp only [Option.some_bind] at h
        have hp := (genLinesSAux_props (toPure gs) (generateS fuel)
          (generateP (toPure gs) fuel)
          (fun gs2 lab hgs2 => by rw [ih.1 gs2 lab, hgs2])
          (fun gs2 lab out2 gs2' hgs2 hsome => by
            rw [ih.2 gs2 lab out2 gs2' hsome, hgs2])
          blk.config blk.lines (setPosG gs label blk.lines.length)
          (toPure_setPosG gs label blk.lines.length)).2
        exact hp out gs' h

/-! Directive-matcher comparison lemmas. -/

theorem ipc_take (p : List Char) :
    ∀ cs, isPrefixCh p cs = true → cs.take p.length = p := by
  induction p with
  | nil => intro cs _; simp
  | cons a ps ih =>
    intro cs h
    cases cs with
    | nil => simp [isPrefixCh] at h
    | cons c cs' =>
      simp only [isPrefixCh, Bool.and_eq_true, beq_iff_eq] at h
      simp [List.take_succ_cons, ← h.1, ih cs' h.2]

theorem ipc_false_heads (p cs : List Char) (a b : Char)
    (hp : p.head? = some a) (hc : cs.head? = some b) (hne : a ≠ b) :
    isPrefixCh p cs = false := by
  cases p with
  | nil => simp at hp
  | cons x ps =>
    cases cs with
    | nil => simp at hc
    | cons y cs' =>
      simp only [List.head?_cons, Option.some.injEq] at hp hc
      subst hp; subst hc
      have hxy : (x == y) = false := beq_eq_false_iff_ne.mpr hne
      simp [isPrefixCh, hxy]

theorem head?_stripNL (cs : List Char) :
    (stripNL cs).head? = cs.head? ∨ stripNL cs = [] := by
  unfold stripNL
  split
  · cases cs with
    | nil => right; rfl
    | cons c cs' =>
      cases cs' with
      | nil => right; rfl
      | cons d cs'' => left; simp [List.dropLast]
  · left; rfl

theorem dropWhile_eq_self_of_head (cs : List Char) (c : Char)
    (h : cs.head? = some c) (hc : isPySpace c = false) :
    cs.dropWhile isPySpace = cs := by
  cases cs with
  | nil => simp at h
  | cons x cs' =>
    simp only [List.head?_cons, Option.some.injEq] at h
    subst h
    simp [List.dropWhile_cons, hc]

theorem stripNL_two (c d : Char) (cs : List Char) :
    stripNL (c :: d :: cs) = [] ∨ stripNL (c :: d :: cs) = [c]
      ∨ ∃ t, stripNL (c :: d :: cs) = c :: d :: t := by
  unfold stripNL
  split
  · cases cs with
    | nil => right; left; rfl
    | cons e cs' =>
      right; right
      exact ⟨(e :: cs').dropLast, by simp [List.dropLast]⟩
  · right; right; exact ⟨cs, rfl⟩

theorem matchesStart_ipc (line : String) (h : matchesStartCodeblock line = true) :
    isPrefixCh "```".data line.data = true := by
  unfold matchesStartCodeblock parseStartCodeblock at h
  by_cases hp : isPrefixCh "```".data line.data = true
  · exact hp
  · exfalso; rw [if_neg hp] at h; simp at h

theorem refLabel_ipc (line : String) (h : (refLabel line).isSome = true) :
    isPrefixCh "<<".data ((stripNL line.data).dropWhile isPySpace) = true := by
  unfold refLabel at h
  by_cases hp : isPrefixCh "<<".data ((stripNL line.data).dropWhile isPySpace) = true
  · exact hp
  · exfalso; rw [if_neg hp] at h; simp at h

theorem includeFile_ipc (line : String) (h : (parseIncludeFile line).isSome = true) :
    isPrefixCh "<!-- i".data (stripNL line.data) = true := by
  unfold parseIncludeFile at h
  by_cases hp : isPrefixCh "<!-- i".data (stripNL line.data) = true
  · exact hp
  · exfalso; rw [if_neg hp] at h; simp at h

theorem start_excludes (line : String) (h : matchesStartCodeblock line = true) :
    refLabel line = none ∧ parseIncludeFile line = none := by
  have hp := matchesStart_ipc line h
  have htake : line.data.take 3 = "```".data := by
    have := ipc_take "```".data line.data hp
    rwa [show ("```".data).length = 3 from rfl] at this
  have hdata : line.data = btChar :: btChar :: btChar :: line.data.drop 3 := by
    conv_lhs => rw [← List.take_append_drop 3 line.data]
    rw [htake, show "```".data = [btChar, btChar, btChar] from rfl]
    rfl
  have hhead : line.data.head? = some btChar := by rw [hdata]; rfl
  constructor
  · rcases head?_stripNL line.data with hh | hnil
    · have hu : (stripNL line.data).dropWhile isPySpace = stripNL line.data := by
        apply dropWhile_eq_self_of_head _ btChar
        · rw [hh, hhead]
        · decide
      have hfalse : isPrefixCh "<<".data
          ((stripNL line.data).dropWhile isPySpace) = false := by
        apply ipc_false_heads "<<".data _ '<' btChar rfl ?_ (by decide)
        rw [hu, hh, hhead]
      unfold refLabel
      rw [if_neg (by simp [hfalse])]
    · have hfalse : isPrefixCh "<<".data
          ((stripNL line.data).dropWhile isPySpace) = false := by
        rw [hnil]; rfl
      unfold refLabel
      rw [if_neg (by simp [hfalse])]
  · rcases head?_stripNL line.data with hh | hnil
    · have hfalse : isPrefixCh "<!-- i".data (stripNL line.data) = false := by
        apply ipc_false_heads "<!-- i".data _ '<' btChar rfl ?_ (by decide)
        rw [hh, hhead]
      unfold parseIncludeFile
      rw [if_neg (by simp [hfalse])]
    · have hfalse : isPrefixCh "<!-- i".data (stripNL line.data) = false := by
        rw [hnil]; rfl
      unfold parseIncludeFile
      rw [if_neg (by simp [hfalse])]

theorem ref_excludes_include (line : String) (h : (refLabel line).isSome = true) :
    parseIncludeFile line = none := by
  have h2 := refLabel_ipc line h
  by_cases hinc : isPrefixCh "<!-- i".data (stripNL line.data) = true
  · exfalso
    have htake : (stripNL line.data).take 6 = "<!-- i".data := by
      have := ipc_take "<!-- i".data (stripNL line.data) hinc
      rwa [show ("<!-- i".data).length = 6 from rfl] at this
    have hdata : stripNL line.data
        = '<' :: '!' :: '-' :: '-' :: ' ' :: 'i' :: (stripNL line.data).drop 6 := by
      conv_lhs => rw [← List.take_append_drop 6 (stripNL line.data)]
      rw [htake]
      rfl
    have hu : (stripNL line.data).dropWhile isPySpace = stripNL line.data := by
      apply dropWhile_eq_self_of_head _ '<'
      · rw [hdata]; rfl
      · decide
    rw [hu, hdata, show "<<".data = ['<', '<'] from rfl] at h2
    simp [isPrefixCh] at h2
  · unfold parseIncludeFile
    rw [if_neg hinc]

/-! Codeblock segment lemmas shared by the scenario theorems. -/

theorem startCodeblock_create (st : SnarlState) (m : StartMatch) (cfg : BlockConfig)
    (L : String) (hargs : blockArgsOf m = .ok cfg) (hlabel : cfg.label = some L)
    (happend : m.append = false) :
    startCodeblock st m
      = .ok { st with
                blocks := setEntry st.blocks L ⟨[], cfg⟩,
                ctxBlock := some L } := by
  simp [startCodeblock, hargs, hlabel, happend]

theorem startCodeblock_append_existing (st : SnarlState) (m : StartMatch)
    (cfg : BlockConfig) (L : String) (blk : Block)
    (hargs : blockArgsOf m = .ok cfg) (hlabel : cfg.label = some L)
    (happend : m.append = true) (hlook : lookupBlock st.blocks L = some blk) :
    startCodeblock st m = .ok { st with ctxBlock := some L } := by
  simp [startCodeblock, hargs, hlabel, happend, hlook]

theorem closeCodeblock_hidden (st : SnarlState) (L : String) (blk : Block)
    (hctx : st.ctxBlock = some L) (hlook : lookupBlock st.blocks L = some blk)
    (hhide : blk.config.hide = true) : closeCodeblock st = st := by
  simp [closeCodeblock, hctx, hlook, hhide]

theorem closeCodeblock_shown (st : SnarlState) (L : String) (blk : Block)
    (hctx : st.ctxBlock = some L) (hlook : lookupBlock st.blocks L = some blk)
    (hhide : blk.config.hide = false) :
    closeCodeblock st = { st with out := st.out ++ weaveBlock blk } := by
  simp [closeCodeblock, hctx, hlook, hhide]

theorem goLines_block_segment (fs : FS)
    (child : SnarlState → List String → Except PErr SnarlState)
    (st : SnarlState) (openLine : String) (m : StartMatch) (cfg : BlockConfig)
    (L : String) (body rest : List String)
    (hm : parseStartCodeblock openLine = some m)
    (hargs : blockArgsOf m = .ok cfg) (hlabel : cfg.label = some L)
    (happend : m.append = false)
    (hbody : ∀ l ∈ body, matchesEndCodeblock l = false) :
    goLines fs child st PState.init (openLine :: (body ++ "```\n" :: rest))
      = goLines fs child
          (closeCodeblock
            { st with
                blocks := setEntry st.blocks L ⟨body, cfg⟩,
                ctxBlock := some L })
          PState.init rest := by
  rw [goLines_init_start fs child st openLine _ m _ hm
    (startCodeblock_create st m cfg L hargs hlabel happend)]
  rw [goLines_capture_run fs child body _ ("```\n" :: rest) hbody]
  rw [foldl_captureWrite body _ L { lines := [], config := cfg } rfl
    (by simp [lookupBlock_setEntry_self])]
  rw [goLines_close_step fs child _ "```\n" rest (by decide)]
  simp [setEntry_setEntry]

/-! The claims. -/

/-- C1: for every store and every block `B` whose body contains a line
matching the block-reference pattern for label `A`: when `B` is not
configured verbatim, `generate("B")` yields, in place of that line, the
fully expanded content of `A` (the recursive `generate(A)`) between the
processed lines surrounding it; when `B` is configured verbatim, every body
line — the reference-looking one included — is yielded unexpanded (only
the replacement pairs are applied). -/
theorem C1_generate_expands_reference (s : Store) (fuel : Nat) (B A : String)
    (blk : Block) (pre post : List String) (l : String)
    (hB : lookupBlock s B = some blk)
    (hlines : blk.lines = pre ++ l :: post)
    (href : refLabel l = some A) :
    (blk.config.verbatim = false →
      generateP s (fuel + 1) B
        = (genLinesAux (generateP s fuel) blk.config pre).bind (fun xs =>
            (generateP s fuel A).bind (fun ys =>
              (genLinesAux (generateP s fuel) blk.config post).map (fun zs =>
                xs ++ ys ++ zs))))
    ∧ (blk.config.verbatim = true →
      generateP s (fuel + 1) B = some (blk.lines.map (emitLine blk.config))) := by
  constructor
  · intro hv
    have hcons : genLinesAux (generateP s fuel) blk.config (l :: post)
        = (generateP s fuel A).bind (fun xs =>
            (genLinesAux (generateP s fuel) blk.config post).map (fun ys => xs ++ ys)) := by
      simp [genLinesAux, href, hv]
    simp only [generateP, hB, Option.some_bind, hlines]
    rw [genLinesAux_append, hcons]
    cases genLinesAux (generateP s fuel) blk.config pre with
    | none => simp
    | some xs =>
      simp only [Option.some_bind]
      cases generateP s fuel A with
      | none => simp
      | some ys =>
        simp only [Option.some_bind]
        cases genLinesAux (generateP s fuel) blk.config post with
        | none => simp
        | some zs => simp [List.append_assoc]
  · intro hv
    simp only [generateP, hB, Option.some_bind]
    exact genLinesAux_plain _ _ _ (fun x _ => Or.inr hv)

/-- Witness for C1, at a store holding a block A with one plain line and a
block B whose single body line references A. -/
theorem C1_witness :
    ((emptyConfig.verbatim = false →
      generateP storeAB 2 "B"
        = (genLinesAux (generateP storeAB 1) emptyConfig []).bind (fun xs =>
            (generateP storeAB 1 "A").bind (fun ys =>
              (genLinesAux (generateP storeAB 1) emptyConfig []).map (fun zs =>
                xs ++ ys ++ zs))))
    ∧ (emptyConfig.verbatim = true →
      generateP storeAB 2 "B" = some (["<<A>>\n"].map (emitLine emptyConfig)))) :=
  C1_generate_expands_reference storeAB 1 "B" "A" ⟨["<<A>>\n"], emptyConfig⟩ [] []
    "<<A>>\n" (by decide) rfl (by decide)

/-- C2: generation is repeatable and read-only. If `generate` on a label
returns an output and an updated store, then calling it again on the
updated store returns the same output, and the update touched only file
positions: every block's stored content and configuration (the `toPure`
projection) is unchanged. -/
theorem C2_generate_repeatable_readonly (fuel : Nat) (gs : GStore) (label : String)
    (out : List String) (gs' : GStore)
    (h : generateS fuel gs label = some (out, gs')) :
    (∃ gs'', generateS fuel gs' label = some (out, gs'')) ∧ toPure gs' = toPure gs := by
  have hpres := (generateS_props fuel).2 gs label out gs' h
  have h1 := (generateS_props fuel).1 gs label
  have h2 := (generateS_props fuel).1 gs' label
  rw [h] at h1
  simp only [Option.map_some'] at h1
  rw [hpres, ← h1] at h2
  refine ⟨?_, hpres⟩
  cases hg : generateS fuel gs' label with
  | none => rw [hg] at h2; simp at h2
  | some pr =>
    rw [hg] at h2
    simp only [Option.map_some', Option.some.injEq] at h2
    exact ⟨pr.2, by rw [← h2]⟩

/-- Witness for C2 at a one-block store. -/
theorem C2_witness :
    (∃ gs'', generateS 1 gsA1 "a" = some (["x\n"], gs'')) ∧ toPure gsA1 = toPure gsA0 :=
  C2_generate_repeatable_readonly 1 gsA0 "a" ["x\n"] gsA1 (by decide)

/-- C3: parsing the document that opens a block with `--replace gadgets
gizmos` and captures the line "gadgets\n" stores the raw line unmodified,
while `generate` on the block's label yields "gizmos\n": the substitution
is applied at generation time only, never at capture time. -/
theorem C3_replace_at_generation_only :
    parse fsEmpty st0 docC3 = .ok stC3
    ∧ lookupBlock stC3.blocks "block0" = some ⟨["gadgets\n"], cfgC3⟩
    ∧ generateP stC3.blocks 2 "block0" = some ["gizmos\n"] :=
  ⟨rfl, rfl, rfl⟩

/-- C4: the include depth starts at 0 and increases by one per nested
include; an include chain of depth 10 aborts with RecursiveIncludeError
carrying the offending depth 10, while a chain of depth 9 parses
successfully. -/
theorem C4_include_depth_ceiling :
    parse fs10 st0 ["<!-- include f1 -->\n"]
      = .error (.snarl (.recursiveIncludeError 10))
    ∧ parse fs9 st0 ["<!-- include f1 -->\n"] = .ok stDone :=
  ⟨rfl, rfl⟩

/-- C5 counterexample: appending to the nonexistent label "nope" fails with
Python's built-in KeyError — not with a distinguished BlockNotFound error,
which the error taxonomy translated from src/snarl/exc.py does not contain
(its only classes are RecursiveIncludeError, BlockArgumentError and
UnexpectedEOFError); generate on an unknown label likewise fails with the
same mapping-lookup failure. -/
theorem C5_counterexample :
    parse fsEmpty st0 ["```+=nope\n"] = .error (.keyError "nope")
    ∧ generateP [] 1 "nope" = none :=
  ⟨rfl, rfl⟩

/-- C5 amended: a codeblock-open directive with the append marker whose
label names no existing block fails with the KeyError of the block-store
lookup, and a call to generate with a label not in the store fails (its
lookup finds nothing); appending never auto-creates a block (the failing
directive returns an error and no updated state). -/
theorem C5_amended_keyerror :
    (∀ (st : SnarlState) (m : StartMatch) (cfg : BlockConfig) (label : String),
      blockArgsOf m = .ok cfg → cfg.label = some label → m.append = true →
      lookupBlock st.blocks label = none →
      startCodeblock st m = .error (.keyError label))
    ∧ (∀ (s : Store) (fuel : Nat) (label : String),
      lookupBlock s label = none → generateP s (fuel + 1) label = none) := by
  constructor
  · intro st m cfg label hargs hlabel happend hlook
    simp [startCodeblock, hargs, hlabel, happend, hlook]
  · intro s fuel label hlook
    simp [generateP, hlook]

/-- Witness for C5 at the append directive "```+=nope" against an empty
store. -/
theorem C5_witness :
    startCodeblock st0 mNope = .error (.keyError "nope")
    ∧ generateP [] 1 "nope" = none :=
  ⟨C5_amended_keyerror.1 st0 mNope cfgNope "nope" rfl rfl rfl rfl,
   C5_amended_keyerror.2 [] 0 "nope" rfl⟩

/-- C6 counterexample: the bare fence line matches both the codeblock-open
and the codeblock-close patterns, so it is not true that at most one
directive kind matches every line. -/
theorem C6_counterexample :
    matchesStartCodeblock "```\n" = true ∧ matchesEndCodeblock "```\n" = true := by
  constructor <;> decide

/-- C6 amended: directive patterns are pairwise exclusive except that
every line matching the codeblock-close pattern also matches the
codeblock-open pattern (the parser disambiguates the bare fence by state:
open is tried only in INIT, close only while capturing). A line matching
the block-reference pattern matches neither fence pattern nor the
file-include pattern; a line matching the file-include pattern matches
neither fence pattern; and a line matched by neither pattern consulted in
the INIT state is prose, copied verbatim to the output sink. -/
theorem C6_amended_matchers :
    (∀ line : String, matchesEndCodeblock line = true → matchesStartCodeblock line = true)
    ∧ (∀ line : String, matchesStartCodeblock line = true →
        refLabel line = none ∧ parseIncludeFile line = none)
    ∧ (∀ line : String, (refLabel line).isSome = true → parseIncludeFile line = none)
    ∧ (∀ (fs : FS) (child : SnarlState → List String → Except PErr SnarlState)
        (st : SnarlState) (line : String) (rest : List String),
        parseStartCodeblock line = none → parseIncludeFile line = none →
        goLines fs child st PState.init (line :: rest)
          = goLines fs child { st with out := st.out ++ [line] } PState.init rest) := by
  refine ⟨?_, ?_, ?_, ?_⟩
  · intro line h
    simp only [matchesEndCodeblock, Bool.or_eq_true, beq_iff_eq] at h
    rcases h with h | h <;> subst h <;> decide
  · exact fun line h => start_excludes line h
  · exact fun line h => ref_excludes_include line h
  · exact fun fs child st line rest h1 h2 => goLines_init_prose fs child st line rest h1 h2

/-- Witness for C6 at the prose line "hello". -/
theorem C6_witness :
    goLines fsEmpty childNone st0 PState.init ["hello\n"]
      = goLines fsEmpty childNone { st0 with out := st0.out ++ ["hello\n"] }
          PState.init [] :=
  C6_amended_matchers.2.2.2 fsEmpty childNone st0 "hello\n" [] (by decide) (by decide)

/-- C7 counterexample: the line whose content begins with the doubled
comment sentinel ("<<!--") is copied to the output sink verbatim with the
doubling intact — it is not unescaped to a single occurrence of the
sentinel, as the second conjunct's inequality records. -/
theorem C7_counterexample :
    parse fsEmpty st0 ["<<!-- include f -->\n"] = .ok stC7
    ∧ "<<!-- include f -->\n" ≠ "<!-- include f -->\n" := by
  constructor
  · rfl
  · decide

/-- C7 amended: the parser implements no escape-marker directive. A line
whose content begins with a doubled comment sentinel ("<<!--") matches no
directive pattern and is copied to the output sink verbatim, with both
occurrences of the sentinel intact; no unescaping ever happens. -/
theorem C7_doubled_sentinel_verbatim (fs : FS)
    (child : SnarlState → List String → Except PErr SnarlState)
    (st : SnarlState) (rest : List String) (tail : String) :
    goLines fs child st PState.init (("<<!--" ++ tail) :: rest)
      = goLines fs child { st with out := st.out ++ ["<<!--" ++ tail] }
          PState.init rest := by
  have hdata : ("<<!--" ++ tail).data = '<' :: '<' :: ("!--".data ++ tail.data) := by
    rw [String.data_append, show "<<!--".data = '<' :: '<' :: '!' :: '-' :: '-' :: [] from rfl]
    rfl
  apply goLines_init_prose
  · have hfalse : isPrefixCh "```".data ("<<!--" ++ tail).data = false := by
      apply ipc_false_heads "```".data _ btChar '<' rfl ?_ (by decide)
      rw [hdata]; rfl
    unfold parseStartCodeblock
    rw [hfalse]
    simp
  · have hfalse : isPrefixCh "<!-- i".data (stripNL (("<<!--" ++ tail).data)) = false := by
      rw [hdata]
      rcases stripNL_two '<' '<' ("!--".data ++ tail.data) with h0 | h1 | ⟨t, h2⟩
      · rw [h0]; rfl
      · rw [h1]; rfl
      · rw [h2, show "<!-- i".data = '<' :: '!' :: '-' :: '-' :: ' ' :: 'i' :: [] from rfl]
        have hne : ('!' == '<') = false := rfl
        simp [isPrefixCh, hne]
    unfold parseIncludeFile
    rw [hfalse]
    simp

/-- C8: a block opened with the hide flag contributes nothing to the
output sink — the close fence writes nothing, and the state after the
block segment differs from the state before it only in the block store and
capture context — yet the block is stored with its full captured body, and
its content is retrievable through generate (which applies the
configuration's replacement pairs, the identity here). -/
theorem C8_hidden_block (fs : FS)
    (child : SnarlState → List String → Except PErr SnarlState)
    (st : SnarlState) (openLine : String) (m : StartMatch) (cfg : BlockConfig)
    (L : String) (body rest : List String)
    (hm : parseStartCodeblock openLine = some m)
    (hargs : blockArgsOf m = .ok cfg) (hlabel : cfg.label = some L)
    (happend : m.append = false) (hhide : cfg.hide = true)
    (hbody : ∀ l ∈ body, matchesEndCodeblock l = false) :
    goLines fs child st PState.init (openLine :: (body ++ "```\n" :: rest))
      = goLines fs child
          { st with
              blocks := setEntry st.blocks L ⟨body, cfg⟩,
              ctxBlock := some L }
          PState.init rest
    ∧ (∀ fuel, (∀ l ∈ body, refLabel l = none) →
        generateP (setEntry st.blocks L ⟨body, cfg⟩) (fuel + 1) L
          = some (body.map (emitLine cfg))) := by
  constructor
  · rw [goLines_block_segment fs child st openLine m cfg L body rest hm hargs hlabel
      happend hbody]
    congr 1
    exact closeCodeblock_hidden _ L ⟨body, cfg⟩ rfl (lookupBlock_setEntry_self _ _ _) hhide
  · intro fuel href
    simp only [generateP, lookupBlock_setEntry_self, Option.some_bind]
    exact genLinesAux_plain _ _ _ (fun x hx => Or.inl (href x hx))

/-- Witness for C8 at the directive "```=secret --hide" with the one-line
body "s1". -/
theorem C8_witness :
    goLines fsEmpty childNone st0 PState.init
        ("```=secret --hide\n" :: (["s1\n"] ++ "```\n" :: []))
      = goLines fsEmpty childNone
          { st0 with
              blocks := setEntry st0.blocks "secret" ⟨["s1\n"], cfgSecret⟩,
              ctxBlock := some "secret" }
          PState.init []
    ∧ generateP (setEntry st0.blocks "secret" ⟨["s1\n"], cfgSecret⟩) 1 "secret"
        = some (["s1\n"].map (emitLine cfgSecret)) :=
  ⟨(C8_hidden_block fsEmpty childNone st0 "```=secret --hide\n" mSecret cfgSecret
      "secret" ["s1\n"] [] (by decide) rfl rfl rfl rfl (by decide)).1,
   (C8_hidden_block fsEmpty childNone st0 "```=secret --hide\n" mSecret cfgSecret
      "secret" ["s1\n"] [] (by decide) rfl rfl rfl rfl (by decide)).2
     0 (by decide)⟩

/-- C9: opening a codeblock whose label already names an existing block,
without the append marker, succeeds (no error) and unconditionally
replaces the stored block: the store maps the label to a fresh empty block
carrying the new configuration, the previous content and configuration
discarded. -/
theorem C9_reopen_replaces (st : SnarlState) (m : StartMatch) (cfg : BlockConfig)
    (L : String) (oldblk : Block)
    (hargs : blockArgsOf m = .ok cfg) (hlabel : cfg.label = some L)
    (happend : m.append = false)
    (_hold : lookupBlock st.blocks L = some oldblk) :
    startCodeblock st m
      = .ok { st with
                blocks := setEntry st.blocks L ⟨[], cfg⟩,
                ctxBlock := some L }
      ∧ lookupBlock (setEntry st.blocks L ⟨[], cfg⟩) L = some ⟨[], cfg⟩ :=
  ⟨startCodeblock_create st m cfg L hargs hlabel happend,
   lookupBlock_setEntry_self _ _ _⟩

/-- Witness for C9: re-opening label "b" over a store already holding a
block "b" with content. -/
theorem C9_witness :
    startCodeblock stB mB
      = .ok { stB with
                blocks := setEntry stB.blocks "b" ⟨[], cfgB⟩,
                ctxBlock := some "b" }
      ∧ lookupBlock (setEntry stB.blocks "b" ⟨[], cfgB⟩) "b" = some ⟨[], cfgB⟩ :=
  C9_reopen_replaces stB mB cfgB "b" ⟨["old\n"], emptyConfig⟩ rfl rfl rfl
    (by decide)

/-- C10: every close-fence of a non-hidden block serializes the block's
entire accumulated buffer into the output sink (first conjunct, for any
state whose current block is not hidden); in particular — second conjunct,
for the label "b" with arbitrary first and appended bodies — closing an
append re-emits the previously captured lines together with the appended
ones, so the output sink receives the earlier content twice. -/
theorem C10_close_serializes_buffer :
    (∀ (st : SnarlState) (L : String) (blk : Block),
      st.ctxBlock = some L → lookupBlock st.blocks L = some blk →
      blk.config.hide = false →
      closeCodeblock st = { st with out := st.out ++ weaveBlock blk })
    ∧ (∀ (fs : FS) (child : SnarlState → List String → Except PErr SnarlState)
        (st : SnarlState) (rest xs ys : List String),
      (∀ l ∈ xs, matchesEndCodeblock l = false) →
      (∀ l ∈ ys, matchesEndCodeblock l = false) →
      goLines fs child st PState.init
          ("```=b\n" :: (xs ++ "```\n" :: "```+=b\n" :: (ys ++ "```\n" :: rest)))
        = goLines fs child
            { st with
                blocks := setEntry st.blocks "b" ⟨xs ++ ys, cfgB⟩,
                ctxBlock := some "b",
                out := st.out ++ weaveBlock ⟨xs, cfgB⟩ ++ weaveBlock ⟨xs ++ ys, cfgB⟩ }
            PState.init rest) := by
  constructor
  · exact fun st L blk hctx hlook hhide => closeCodeblock_shown st L blk hctx hlook hhide
  · intro fs child st rest xs ys hxs hys
    rw [goLines_block_segment fs child st "```=b\n" mB cfgB "b" xs
      ("```+=b\n" :: (ys ++ "```\n" :: rest)) (by decide) rfl rfl rfl hxs]
    set stA : SnarlState :=
      { st with blocks := setEntry st.blocks "b" ⟨xs, cfgB⟩, ctxBlock := some "b" }
      with hA
    rw [closeCodeblock_shown stA "b" ⟨xs, cfgB⟩ rfl
      (lookupBlock_setEntry_self st.blocks "b" ⟨xs, cfgB⟩) rfl]
    set stB2 : SnarlState := { stA with out := stA.out ++ weaveBlock ⟨xs, cfgB⟩ }
      with hB2
    rw [goLines_init_start fs child stB2 "```+=b\n" (ys ++ "```\n" :: rest) mBappend
      { stB2 with ctxBlock := some "b" } (by decide)
      (startCodeblock_append_existing stB2 mBappend cfgB "b" ⟨xs, cfgB⟩ rfl
        rfl rfl (lookupBlock_setEntry_self st.blocks "b" ⟨xs, cfgB⟩))]
    set stC : SnarlState := { stB2 with ctxBlock := some "b" } with hC
    rw [goLines_capture_run fs child ys stC ("```\n" :: rest) hys]
    rw [foldl_captureWrite ys stC "b" ⟨xs, cfgB⟩ rfl
      (lookupBlock_setEntry_self st.blocks "b" ⟨xs, cfgB⟩)]
    rw [goLines_close_step fs child _ "```\n" rest (by decide)]
    rw [closeCodeblock_shown
      { stC with blocks := setEntry stC.blocks "b" ⟨xs ++ ys, cfgB⟩ } "b"
      ⟨xs ++ ys, cfgB⟩ rfl (lookupBlock_setEntry_self stC.blocks "b" ⟨xs ++ ys, cfgB⟩)
      rfl]
    congr 1
    simp only [hC, hB2, hA]
    simp [setEntry_setEntry, List.append_assoc]

/-- Witness for C10: the close-fence serialization at a concrete one-block
state, and the append scenario with bodies "x" and "y". -/
theorem C10_witness :
    closeCodeblock
        { blocks := [("b", ⟨["x\n"], cfgB⟩)], out := [], blocknum := 0,
          ctxBlock := some "b", ignoreMissing := false }
      = { blocks := [("b", ⟨["x\n"], cfgB⟩)],
          out := [] ++ weaveBlock ⟨["x\n"], cfgB⟩, blocknum := 0,
          ctxBlock := some "b", ignoreMissing := false }
    ∧ goLines fsEmpty childNone st0 PState.init
          ("```=b\n" :: (["x\n"] ++ "```\n" :: "```+=b\n" :: (["y\n"] ++ "```\n" :: [])))
        = goLines fsEmpty childNone
            { st0 with
                blocks := setEntry st0.blocks "b" ⟨["x\n"] ++ ["y\n"], cfgB⟩,
                ctxBlock := some "b",
                out := st0.out ++ weaveBlock ⟨["x\n"], cfgB⟩
                       ++ weaveBlock ⟨["x\n"] ++ ["y\n"], cfgB⟩ }
            PState.init [] :=
  ⟨C10_close_serializes_buffer.1
      { blocks := [("b", ⟨["x\n"], cfgB⟩)], out := [], blocknum := 0,
        ctxBlock := some "b", ignoreMissing := false }
      "b" ⟨["x\n"], cfgB⟩ rfl (by decide) rfl,
   C10_close_serializes_buffer.2 fsEmpty childNone st0 [] ["x\n"] ["y\n"]
      (by decide) (by decide)⟩

end Snarl
